import Mathlib

/-!
# Verification of the HieraChain engine core against its specification

Shallow embedding of the Go sources of the HieraChain engine:
mempool (`engine/mempool`), ordering service (`core/ordering.go`),
worker pool stats (`core/worker_pool.go`), framed Arrow protocol
(`api/arrow_protocol.go`), auth handshake token extraction
(`api` server), gossip propagator and ZeroMQ node
(`network/propagator`, `network/zmq_transport.go`).

Conventions:
* Go `int`/`int64` fields are modelled as `Int`; slice indices and
  lengths as `Nat`.
* `time.Time` values are modelled as `Int` (nanoseconds since epoch,
  except where noted); `time.Since(t)` at instant `now` is `now - t`.
* Go slices are modelled as a length together with an index-to-value
  function; a Go map is modelled as an association list.
* Channels are modelled as lists (a send appends).
-/

namespace HieraChain

/-! ## Mempool data model (engine package, mempool source) -/

/-- Go `Transaction` from the mempool source (the `Metadata` map is opaque
and never inspected by the code under verification; it is omitted). -/
structure Transaction where
  id : String
  entityID : String
  eventType : String
  data : List Nat
  priority : Int
  timestamp : Int
  deriving DecidableEq, Repr, Inhabited

/-- Go `priorityQueue.Less(i, j)`: higher priority first, then earlier
timestamp (`Timestamp.Before`). -/
def lessTx (x y : Transaction) : Bool :=
  if x.priority ≠ y.priority then decide (x.priority > y.priority)
  else decide (x.timestamp < y.timestamp)

/-- The spec's extraction order: priority descending, admission
timestamp ascending as tie-breaker ("x may come before y"). -/
def specLe (x y : Transaction) : Prop :=
  y.priority < x.priority ∨ (x.priority = y.priority ∧ x.timestamp ≤ y.timestamp)

instance : DecidableRel specLe := fun x y => by
  unfold specLe; infer_instance

/-- Go `pq.Swap(i, j)` on the slice, in the length-plus-function model. -/
def heapSwap (f : Nat → Transaction) (i j : Nat) : Nat → Transaction :=
  fun k => if k = i then f j else if k = j then f i else f k

/-- The child index chosen by `container/heap.down`: the left child
`2i+1`, or the right child `2i+2` when it exists and is `Less`. -/
def downJ (f : Nat → Transaction) (i n : Nat) : Nat :=
  if 2*i+2 < n ∧ lessTx (f (2*i+2)) (f (2*i+1)) = true then 2*i+2 else 2*i+1

/-- Go `container/heap.down(h, i, n)` specialised to `priorityQueue`.
(The Go guard `j1 < 0` only fires on 64-bit overflow, unreachable for
real slice lengths, and is dropped.) -/
def siftDown (f : Nat → Transaction) (i n : Nat) : Nat → Transaction :=
  if _h : 2*i+1 < n then
    if lessTx (f (downJ f i n)) (f i) = true then
      siftDown (heapSwap f i (downJ f i n)) (downJ f i n) n
    else f
  else f
termination_by n - i
decreasing_by
  unfold downJ; split <;> omega

/-- The `container/heap` invariant for the region `[0, n)`:
no child is `Less` than its parent. -/
def heapInv (f : Nat → Transaction) (n : Nat) : Prop :=
  ∀ c, c < n → 0 < c → lessTx (f c) (f ((c-1)/2)) = false

instance (f : Nat → Transaction) (n : Nat) : Decidable (heapInv f n) := by
  unfold heapInv; infer_instance

/-- Go `container/heap.Pop` on a heap of length `m ≥ 1`: swap the root with
the last element, sift the new root down over `[0, m-1)`, then detach and
return the last slot (`priorityQueue.Pop`). Returns (popped, array, new length). -/
def goHeapPop (f : Nat → Transaction) (m : Nat) : Transaction × (Nat → Transaction) × Nat :=
  let n := m - 1
  let f2 := siftDown (heapSwap f 0 n) 0 n
  (f2 n, f2, n)

/-- Mempool state: `pending` map (association list), the priority-queue
slice as length plus index function, and the capacity. -/
structure Mempool where
  pending : List (String × Transaction)
  qlen : Nat
  qf : Nat → Transaction
  maxSize : Nat

/-- The loop body of `Mempool.PopBatch`, iterated `k` times:
`heap.Pop`, `delete(m.pending, tx.ID)`, append to the batch. -/
def popLoop (f : Nat → Transaction) (len : Nat) (pending : List (String × Transaction)) :
    Nat → List Transaction × (Nat → Transaction) × Nat × List (String × Transaction)
  | 0 => ([], f, len, pending)
  | k+1 =>
    let r := goHeapPop f len
    let pending' := pending.filter (fun e => e.1 ≠ r.1.id)
    let rest := popLoop r.2.1 r.2.2 pending' k
    (r.1 :: rest.1, rest.2)

/-- Go `Mempool.PopBatch(n)`: nil on `n ≤ 0` or empty queue, otherwise pop
`min n len` transactions, deleting each from the pending map. -/
def goPopBatch (m : Mempool) (k : Nat) : List Transaction × Mempool :=
  if k = 0 ∨ m.qlen = 0 then ([], m)
  else
    let r := popLoop m.qf m.qlen m.pending (min k m.qlen)
    (r.1, { m with qf := r.2.1, qlen := r.2.2.1, pending := r.2.2.2 })

/-- Go `Mempool.Contains(txID)`. -/
def goContains (m : Mempool) (txID : String) : Bool :=
  m.pending.any (fun e => e.1 = txID)

/-! ## Framed transport (`api/arrow_protocol.go`) -/

/-- Go `MaxMessageSize = 50 * 1024 * 1024` (50 MiB). -/
def maxMessageSize : Nat := 50 * 1024 * 1024

/-- Errors of the framed read/write functions. Both size checks in the
Go source return (wraps of) the same sentinel `ErrMessageTooLarge`. -/
inductive FrameErr where
  | shortLen
  | oversize
  | shortBody
  deriving DecidableEq, Repr

/-- Big-endian encoding of a `uint32` length, as four bytes. -/
def be32 (L : Nat) : List Nat :=
  [L / 2^24 % 256, L / 2^16 % 256, L / 2^8 % 256, L % 256]

/-- Big-endian decoding of four bytes. -/
def be32val (b0 b1 b2 b3 : Nat) : Nat :=
  ((b0 * 256 + b1) * 256 + b2) * 256 + b3

/-- Go `ReadMessage(r)`: read the 4-byte big-endian length, reject lengths
above `MaxMessageSize` before the body buffer is built, then read
exactly that many body bytes. The stream is the byte sequence the
reader would consume. -/
def goReadMessage (s : List Nat) : Except FrameErr (List Nat) :=
  match s with
  | b0 :: b1 :: b2 :: b3 :: rest =>
    let length := be32val b0 b1 b2 b3
    if length > maxMessageSize then .error .oversize
    else if rest.length < length then .error .shortBody
    else .ok (rest.take length)
  | _ => .error .shortLen

/-- Go `WriteMessage(w, data)`: fail if the length exceeds `MaxUint32`
or `MaxMessageSize`, else emit the 4-byte big-endian prefix then the
body. -/
def goWriteMessage (data : List Nat) : Except FrameErr (List Nat) :=
  if data.length > 2^32 - 1 then .error .oversize
  else if data.length > maxMessageSize then .error .oversize
  else .ok (be32 data.length ++ data)

/-! ## Worker pool statistics (`core/worker_pool.go`) -/

/-- Go `PoolStats`, with the float64 `SuccessRate` modelled in `ℚ`. -/
structure PoolStats where
  name : String
  workers : Int
  active : Int
  completed : Int
  failed : Int
  pendingLen : Nat
  successRate : ℚ
  deriving DecidableEq, Repr

/-- Go `WorkerPool.GetStats()`: `SuccessRate` is
`float64(completed) / float64(total) * 100` when `total > 0`, else 0. -/
def goGetStats (name : String) (workers active completed failed : Int)
    (pendingLen : Nat) : PoolStats :=
  let total := completed + failed
  let successRate : ℚ := if total > 0 then (completed : ℚ) / (total : ℚ) * 100 else 0
  ⟨name, workers, active, completed, failed, pendingLen, successRate⟩

/-! ## Ordering service (`core/ordering.go`) -/

/-- Go `interface` values stored in event `Data` maps
(`float64` is modelled in `ℚ`). -/
inductive GoVal where
  | int (n : Int)
  | float (q : ℚ)
  | str (s : String)
  | other
  deriving DecidableEq, Repr

/-- Go `OrderingStatus` constants. -/
inductive OrderingStatus where
  | active
  | maintenance
  | lockdown
  | shutdown
  | error
  deriving DecidableEq, Repr

/-- Go `EventStatus` constants, in iota order
(note `Ordered` precedes `Certified` in the source). -/
inductive EventStatus where
  | pending
  | processing
  | ordered
  | certified
  | rejected
  deriving DecidableEq, Repr

/-- Go `Certification`. -/
structure Certification where
  eventID : String
  valid : Bool
  errors : List String
  certAt : Int
  metadata : List (String × GoVal)
  deriving DecidableEq, Repr

/-- Go `PendingEvent`. -/
structure PendingEvent where
  id : String
  data : List (String × GoVal)
  channelID : String
  submitter : String
  receivedAt : Int
  status : EventStatus
  cert : Option Certification
  deriving DecidableEq, Repr

/-- Map assignment `m[k] = v` on an association list. -/
def mapSet (l : List (String × α)) (k : String) (v : α) : List (String × α) :=
  (k, v) :: l.filter (fun e => e.1 ≠ k)

/-- Map `delete(m, k)` on an association list. -/
def mapDel (l : List (String × α)) (k : String) : List (String × α) :=
  l.filter (fun e => e.1 ≠ k)

/-- Lookup in a Go map modelled as an association list. -/
def mapHas (l : List (String × α)) (k : String) : Bool :=
  l.any (fun e => e.1 = k)

/-- The default timestamp rule added by `addDefaultRules`: tolerate
`float64`/`int64`/`int`, reject other types, and reject timestamps
outside `[now-86400, now+86400]` (seconds). Returns the error strings
it contributes. `now` is `time.Now().Unix()`. -/
def timestampRule (data : List (String × GoVal)) (now : Int) : List String :=
  match data.find? (fun e => e.1 = "timestamp") with
  | none => []
  | some (_, v) =>
    match v with
    | .float q =>
      if q < (now : ℚ) - 86400 ∨ q > (now : ℚ) + 86400 then ["timestamp out of valid range"] else []
    | .int m =>
      if (m : ℚ) < (now : ℚ) - 86400 ∨ (m : ℚ) > (now : ℚ) + 86400 then ["timestamp out of valid range"] else []
    | _ => ["invalid timestamp type"]

/-- Go `EventCertifier.Validate`: required-field errors first, then the
default timestamp rule (the only registered rule); `Valid` iff the
error list is empty. `now` doubles as `CertAt`. -/
def goValidate (e : PendingEvent) (now : Int) : Certification :=
  let requiredErrs :=
    (["entity_id", "event", "timestamp"].filter (fun k => ¬ mapHas e.data k)).map
      (fun k => "missing required field: " ++ k)
  let errs := requiredErrs ++ timestampRule e.data now
  ⟨e.id, errs.isEmpty, errs, now, []⟩

/-- Go `BlockBuilder` state. -/
structure Builder where
  blockSize : Nat
  batchTimeout : Int
  currentBatch : List PendingEvent
  batchIDs : List String
  batchStart : Int
  deriving DecidableEq, Repr

/-- Go `BlockBuilder.finalize` (with lock held): hand out the batch and
reset; `batchStart := time.Now()`. -/
def goFinalize (b : Builder) (now : Int) : List PendingEvent × Builder :=
  (b.currentBatch, { b with currentBatch := [], batchIDs := [], batchStart := now })

/-- Go `BlockBuilder.AddEvent`: skip duplicates, restart the timer on the
first event, append, and finalize when `len ≥ blockSize` or
`time.Since(batchStart) ≥ batchTimeout`. -/
def goAddEvent (b : Builder) (e : PendingEvent) (now : Int) :
    Option (List PendingEvent) × Builder :=
  if b.batchIDs.contains e.id then (none, b)
  else
    let start := if b.currentBatch.isEmpty then now else b.batchStart
    let b1 : Builder :=
      { b with currentBatch := b.currentBatch ++ [e],
               batchIDs := b.batchIDs ++ [e.id],
               batchStart := start }
    if b1.currentBatch.length ≥ b1.blockSize ∨ now - b1.batchStart ≥ b1.batchTimeout then
      let r := goFinalize b1 now
      (some r.1, r.2)
    else (none, b1)

/-- Go `BlockBuilder.ForceFlush`: finalize iff the batch is non-empty. -/
def goForceFlush (b : Builder) (now : Int) : Option (List PendingEvent) × Builder :=
  if b.currentBatch.isEmpty then (none, b)
  else
    let r := goFinalize b now
    (some r.1, r.2)

/-- Go `OrderingService` state. The two channels are modelled as lists
(`blockChan` sends block while the loop owns no lock; capacity-100
blocking semantics collapse to an append in this single-step model). -/
structure OSState where
  running : Bool
  status : OrderingStatus
  builder : Builder
  certs : List (String × Certification)
  eventChan : List PendingEvent
  maxPending : Nat
  blockChan : List (List PendingEvent)
  pending : List (String × PendingEvent)
  eventsReceived : Int
  eventsCertified : Int
  eventsRejected : Int
  blocksCreated : Int
  deriving DecidableEq, Repr

/-- Go `OrderingService.Start`: error when already running, else flip
`running` and set `StatusActive` (and spawn the loops). -/
def goStart (s : OSState) : Except String OSState :=
  if s.running then .error "service already running"
  else .ok { s with running := true, status := .active }

/-- Go `OrderingService.Stop`: no-op when not running, else clear
`running`, set `StatusShutdown` (then close stopCh and drain). -/
def goStop (s : OSState) : OSState :=
  if ¬ s.running then s
  else { s with running := false, status := .shutdown }

/-- Go `OrderingService.SubmitEvent`: `NotRunning` when the running flag is
down; otherwise stamp `Status = Pending`, `ReceivedAt = now` on the
event, then try a non-blocking send into the intake channel, failing
with the queue-full error when it is saturated. Returns the result,
the service state, and the caller's event object after the call. -/
def goSubmitEvent (s : OSState) (e : PendingEvent) (now : Int) :
    Except String Unit × OSState × PendingEvent :=
  if ¬ s.running then (.error "service not running", s, e)
  else
    let e1 := { e with status := .pending, receivedAt := now }
    if s.eventChan.length < s.maxPending then
      (.ok (), { s with eventChan := s.eventChan ++ [e1] }, e1)
    else (.error "event queue full", s, e1)

/-- Go `OrderingService.handleEvent`: count the event, store it in the
pending map, mark `Processing`, certify; on invalid mark `Rejected`,
drop from pending, count; else mark `Certified`, count, feed the block
builder, and on a full batch mark every batched event `Ordered`, remove
it from the pending map, count the block, and publish. -/
def goHandleEvent (s : OSState) (e : PendingEvent) (now : Int) : OSState :=
  let e1 := { e with status := .processing }
  let cert := goValidate e1 now
  let e2 := { e1 with cert := some cert }
  let s1 := { s with eventsReceived := s.eventsReceived + 1,
                     certs := mapSet s.certs e2.id cert }
  if ¬ cert.valid then
    { s1 with eventsRejected := s1.eventsRejected + 1,
              pending := mapDel (mapSet s1.pending e2.id e2) e2.id }
  else
    let e3 := { e2 with status := .certified }
    let s2 := { s1 with eventsCertified := s1.eventsCertified + 1,
                        pending := mapSet s1.pending e3.id e3 }
    match goAddEvent s2.builder e3 now with
    | (none, b) => { s2 with builder := b }
    | (some batch, b) =>
      let ordered := batch.map (fun ev => { ev with status := .ordered })
      { s2 with builder := b,
                blocksCreated := s2.blocksCreated + 1,
                pending := batch.foldl (fun p ev => mapDel p ev.id) s2.pending,
                blockChan := s2.blockChan ++ [ordered] }

/-- One tick of `OrderingService.checkTimeouts`: if `ForceFlush` yields
a batch, increment `blocksCreated` and publish the batch on the block
channel. The events in the batch are not touched. -/
def goCheckTimeoutsTick (s : OSState) (now : Int) : OSState :=
  match goForceFlush s.builder now with
  | (none, b) => { s with builder := b }
  | (some batch, b) =>
    { s with builder := b,
             blocksCreated := s.blocksCreated + 1,
             blockChan := s.blockChan ++ [batch] }

/-! ## Gossip propagator and ZeroMQ node
(`network/zmq_transport.go` and the propagator source) -/

/-- A network message `Payload` map. Values are opaque to the code
under verification. -/
abbrev Payload := List (String × GoVal)

/-- Go `Message` from `zmq_transport.go` (`Timestamp` in ns). -/
structure Message where
  type_ : String
  from_ : String
  to_ : String
  payload : Payload
  timestamp : Int
  nonce : String
  hops : Int
  deriving DecidableEq, Repr

/-- Go `Propagator.hashMessage`: sha256 over the JSON of
(Type, From, Payload, Timestamp.UnixNano()). The digest is modelled by
the tuple itself: the hash is a deterministic function of exactly these
four fields, and collisions are outside the model. -/
def hashMessage (m : Message) : String × String × Payload × Int :=
  (m.type_, m.from_, m.payload, m.timestamp)

/-- Go `ZmqNode` state (sockets are outside the model; `peers` keeps the
registration order of the Go map's contents). -/
structure Node where
  nodeID : String
  peers : List String
  running : Bool
  replayCache : List (String × Int)
  replayTolerance : Int

/-- The nonce `fmt.Sprintf("%d-%s", time.Now().UnixNano(), n.nodeID)`
built inside `SendDirect`. -/
def mkNonce (now : Int) (nodeID : String) : String :=
  toString now ++ "-" ++ nodeID

/-- The wire envelope `SendDirect` marshals for a peer: a fresh message
with type `"direct"`, the node as sender, a fresh nonce and timestamp,
the given payload, and zero (omitted) hops. -/
def goSendDirectMsg (n : Node) (peerID : String) (payload : Payload) (now : Int) : Message :=
  ⟨"direct", n.nodeID, peerID, payload, now, mkNonce now n.nodeID, 0⟩

/-- Go `ZmqNode.Broadcast(payload, exclude)`: when running, `SendDirect`
to every registered peer not in the exclude set; when stopped, nothing
is sent. Returns the (peer, envelope) pairs put on the wire. -/
def goBroadcastSends (n : Node) (payload : Payload) (exclude : List String) (now : Int) :
    List (String × Message) :=
  if ¬ n.running then []
  else (n.peers.filter (fun p => ¬ exclude.contains p)).map
    (fun p => (p, goSendDirectMsg n p payload now))

/-- Go `Propagator` state. -/
structure PropState where
  seen : List (String × String × Payload × Int)
  maxHops : Int

/-- Go `Propagator.IsDuplicate`. -/
def goIsDuplicate (p : PropState) (h : String × String × Payload × Int) : Bool :=
  p.seen.contains h

/-- Go `Propagator.HandleIncoming`: hash; return false on duplicates; mark
seen; at `hops ≥ maxHops` process without forwarding; else increment the
hop counter and broadcast the payload to all peers except the sender.
Returns (processed, propagator state, wire sends, the caller's message
object after the call). -/
def goHandleIncoming (p : PropState) (n : Node) (msg : Message) (now : Int) :
    Bool × PropState × List (String × Message) × Message :=
  let h := hashMessage msg
  if goIsDuplicate p h then (false, p, [], msg)
  else
    let p1 : PropState := { p with seen := h :: p.seen }
    if msg.hops ≥ p.maxHops then (true, p1, [], msg)
    else
      let msg1 := { msg with hops := msg.hops + 1 }
      (true, p1, goBroadcastSends n msg1.payload [msg.from_] now, msg1)

/-- Go `Propagator.Propagate(type, payload)`: wrap, hash, mark seen, and
broadcast the payload to all peers (empty exclude list). -/
def goPropagate (p : PropState) (n : Node) (msgType : String) (payload : Payload) (now : Int) :
    PropState × List (String × Message) :=
  let msg : Message := ⟨msgType, n.nodeID, "", payload, now, "", 0⟩
  ({ p with seen := hashMessage msg :: p.seen }, goBroadcastSends n payload [] now)

/-- Go `ZmqNode.isValidReplay`: empty nonce skips the check; otherwise
reject a cached nonce or a message older than `replayTolerance`
(`time.Since(msg.Timestamp) > tolerance`), and on acceptance record the
nonce with the current time. Returns (accepted, new cache). -/
def goIsValidReplay (n : Node) (msg : Message) (now : Int) : Bool × List (String × Int) :=
  if msg.nonce = "" then (true, n.replayCache)
  else if n.replayCache.any (fun e => e.1 = msg.nonce) then (false, n.replayCache)
  else if now - msg.timestamp > n.replayTolerance then (false, n.replayCache)
  else (true, (msg.nonce, now) :: n.replayCache)

/-! ## Auth handshake token extraction (`api` connection server) -/

/-- The nine characters of the search pattern `"token":"`. -/
def tokenPat : List Char := ['"', 't', 'o', 'k', 'e', 'n', '"', ':', '"']

/-- Whether `str[i:i+9] == tokenPat` holds at position `i`. -/
def matchesAt (s : List Char) (i : Nat) : Bool :=
  (s.drop i).take 9 = tokenPat

/-- The scan loop of `extractTokenFromAuthMessage`, with `fuel` the
remaining iterations: the first match at `i` yields `idx = i+9`. -/
def goTokenIdxAux (s : List Char) : Nat → Nat → Nat
  | 0, _ => 0
  | fuel+1, i => if matchesAt s i then i + 9 else goTokenIdxAux s fuel (i+1)

/-- The scan of `extractTokenFromAuthMessage`: positions
`0 ≤ i < len(str)-9`; no match leaves the `idx = 0` sentinel. -/
def goTokenIdx (s : List Char) : Nat :=
  goTokenIdxAux s (s.length - 9) 0

/-- Go `extractTokenFromAuthMessage`: scan for `"token":"`; on the sentinel
return empty; otherwise take characters up to the next `'"'` and return
empty when the value is empty (`end == idx`) or unterminated
(`end >= len(str)`). -/
def goExtractToken (s : List Char) : List Char :=
  let idx := goTokenIdx s
  if idx = 0 then []
  else
    let tok := (s.drop idx).takeWhile (fun c => c ≠ '"')
    if tok.length = 0 ∨ idx + tok.length ≥ s.length then [] else tok

/-- Where `performAuthHandshake` stops for a given first frame: an empty
extraction is answered `invalid auth message format` before any token
comparison; otherwise the handshake reaches the
`authenticator.ValidateToken` comparison. -/
inductive AuthStage where
  | malformed
  | tokenComparison
  deriving DecidableEq, Repr

/-- The stage `performAuthHandshake` reaches on a first frame. -/
def goAuthStage (s : List Char) : AuthStage :=
  if goExtractToken s = [] then .malformed else .tokenComparison

/-- Decides whether a frame contains, anywhere, an occurrence of
`"token":"` followed by a non-empty run of non-quote characters and a
closing quote (the claim's "non-empty quote-terminated token value"). -/
def hasQuotedTokenValue (s : List Char) : Bool :=
  (List.range s.length).any (fun i =>
    matchesAt s i ∧
      ((s.drop (i+9)).takeWhile (fun c => c ≠ '"')).length ≠ 0 ∧
      i + 9 + ((s.drop (i+9)).takeWhile (fun c => c ≠ '"')).length < s.length)

/-! ## Concrete fixtures used by counterexamples and witnesses -/

/-- A 3-transaction mempool whose queue is a valid binary heap. -/
def wtx0 : Transaction := ⟨"a", "ent", "ev", [], 5, 10⟩

def wtx1 : Transaction := ⟨"b", "ent", "ev", [], 3, 11⟩

def wtx2 : Transaction := ⟨"c", "ent", "ev", [], 5, 12⟩

def wMempool : Mempool :=
  ⟨[("a", wtx0), ("b", wtx1), ("c", wtx2)], 3,
   fun i => if i = 0 then wtx0 else if i = 1 then wtx1 else wtx2, 10⟩

/-- Go `NewOrderingService` state (defaults of `DefaultOrderingConfig`,
timeout in ns, creation instant 0). -/
def osMaint : OSState :=
  { running := false, status := .maintenance,
    builder := ⟨500, 2000000000, [], [], 0⟩,
    certs := [], eventChan := [], maxPending := 10000, blockChan := [],
    pending := [], eventsReceived := 0, eventsCertified := 0,
    eventsRejected := 0, blocksCreated := 0 }

/-- The service after a successful `Start`. -/
def osActive : OSState :=
  match goStart osMaint with
  | .ok s => s
  | .error _ => osMaint

/-- The service after `Start` then `Stop`. -/
def osShut : OSState := goStop osActive

/-- An active service whose intake channel is saturated. -/
def osFull : OSState := { osActive with maxPending := 0 }

/-- An event carrying a non-`Pending` status before submission. -/
def evC8 : PendingEvent := ⟨"e1", [], "", "", 99, .certified, none⟩

/-- A certified event sitting in the block builder's current batch and
in the service's pending map, as `handleEvent` leaves it when the batch
is not yet full. -/
def evCert : PendingEvent :=
  ⟨"e1", [("entity_id", .str "x"), ("event", .str "created"), ("timestamp", .int 0)],
   "", "", 0, .certified, none⟩

/-- The service state just before a timeout-flusher tick fires. -/
def osTick : OSState :=
  { osActive with
      builder := { osActive.builder with currentBatch := [evCert], batchIDs := ["e1"] },
      pending := [("e1", evCert)] }

/-- Gossip fixtures. -/
def nodeW : Node := ⟨"n1", ["p1", "p2", "p3"], true, [("oldnonce", 0)], 60⟩

def propW : PropState := ⟨[], 5⟩

def msgW : Message := ⟨"gossip", "p2", "", [("action", .str "new_block")], 100, "nonce1", 2⟩

/-- The auth frame `"token":""token":"abc"`: its first `"token":"`
occurrence carries an empty value, a later one carries `abc`. -/
def badFrame : List Char :=
  ['"','t','o','k','e','n','"',':','"','"','t','o','k','e','n','"',':','"','a','b','c','"']

/-- An auth frame with no `type` field whose first `"token":"` carries
the quote-terminated value `abc`. -/
def gFrame : List Char :=
  ['x','"','t','o','k','e','n','"',':','"','a','b','c','"']

/-! ## Order lemmas for `priorityQueue.Less` -/

theorem lessTx_true_iff (x y : Transaction) :
    lessTx x y = true ↔
      (y.priority < x.priority ∨ (x.priority = y.priority ∧ x.timestamp < y.timestamp)) := by
  unfold lessTx
  by_cases h : x.priority = y.priority <;> simp [h]

theorem lessTx_false_iff (x y : Transaction) :
    lessTx x y = false ↔
      (x.priority ≤ y.priority ∧ (x.priority = y.priority → y.timestamp ≤ x.timestamp)) := by
  rw [← Bool.not_eq_true, lessTx_true_iff]
  by_cases h : x.priority = y.priority <;> simp [h]

theorem lessTx_irrefl (x : Transaction) : lessTx x x = false := by
  rw [lessTx_false_iff]; omega

theorem lessTx_asymm {x y : Transaction} (h : lessTx x y = true) : lessTx y x = false := by
  rw [lessTx_true_iff] at h
  rw [lessTx_false_iff]
  constructor
  · omega
  · intro he
    omega

theorem lessTx_neg_trans {x y z : Transaction}
    (h1 : lessTx y x = false) (h2 : lessTx z y = false) : lessTx z x = false := by
  rw [lessTx_false_iff] at h1 h2 ⊢
  constructor
  · omega
  · intro he
    have hy : y.priority = z.priority := by omega
    have hx : x.priority = y.priority := by omega
    have := h1.2 hx.symm
    have := h2.2 hy.symm
    omega

theorem lessTx_true_false {x y z : Transaction}
    (h1 : lessTx x y = true) (h2 : lessTx x z = false) : lessTx y z = false := by
  rw [lessTx_true_iff] at h1
  rw [lessTx_false_iff] at h2 ⊢
  constructor
  · omega
  · intro he
    have hxz : x.priority = z.priority := by omega
    have hxy : x.priority = y.priority := by omega
    have := h2.2 hxz
    omega

theorem specLe_iff_lessTx (x y : Transaction) : specLe x y ↔ lessTx y x = false := by
  rw [lessTx_false_iff]
  unfold specLe
  constructor
  · rintro (hlt | ⟨he, ht⟩)
    · exact ⟨le_of_lt hlt, fun hyx => absurd hyx (by omega)⟩
    · exact ⟨le_of_eq he.symm, fun _ => ht⟩
  · rintro ⟨h1, h2⟩
    rcases eq_or_lt_of_le h1 with he | hlt
    · exact Or.inr ⟨he.symm, h2 he⟩
    · exact Or.inl hlt

/-! ## Heap lemmas for `container/heap` pop -/

theorem heapSwap_fst (f : Nat → Transaction) (i j : Nat) : heapSwap f i j i = f j := by
  simp [heapSwap]

theorem heapSwap_snd (f : Nat → Transaction) (i j : Nat) : heapSwap f i j j = f i := by
  by_cases h : j = i <;> simp [heapSwap, h]

theorem heapSwap_other (f : Nat → Transaction) {i j k : Nat}
    (h1 : k ≠ i) (h2 : k ≠ j) : heapSwap f i j k = f k := by
  simp [heapSwap, h1, h2]

theorem lt_downJ (f : Nat → Transaction) (i n : Nat) : i < downJ f i n := by
  unfold downJ; split <;> omega

theorem downJ_lt (f : Nat → Transaction) {i n : Nat} (h : 2*i+1 < n) :
    downJ f i n < n := by
  unfold downJ; split <;> omega

theorem downJ_spec (f : Nat → Transaction) (i n : Nat) :
    (downJ f i n = 2*i+1 ∧ (2*i+2 < n → lessTx (f (2*i+2)) (f (2*i+1)) = false)) ∨
    (downJ f i n = 2*i+2 ∧ 2*i+2 < n ∧ lessTx (f (2*i+2)) (f (2*i+1)) = true) := by
  unfold downJ
  split
  next h => exact Or.inr ⟨rfl, h.1, h.2⟩
  next h =>
    refine Or.inl ⟨rfl, fun h2 => ?_⟩
    rcases Bool.eq_false_or_eq_true (lessTx (f (2*i+2)) (f (2*i+1))) with hb | hb
    · exact absurd ⟨h2, hb⟩ h
    · exact hb

theorem parent_downJ (f : Nat → Transaction) (i n : Nat) : (downJ f i n - 1) / 2 = i := by
  rcases downJ_spec f i n with ⟨h, _⟩ | ⟨h, _, _⟩ <;> omega

theorem siftDown_out (f : Nat → Transaction) (i n : Nat) :
    ∀ k, n ≤ k → siftDown f i n k = f k := by
  induction f, i, n using siftDown.induct with
  | case1 f i n h hless ih =>
    intro k hk
    rw [siftDown]
    simp only [dif_pos h, if_pos hless]
    rw [ih k hk]
    have hj := downJ_lt f h
    exact heapSwap_other f (by omega) (by omega)
  | case2 f i n h hless =>
    intro k hk
    rw [siftDown]
    simp only [dif_pos h, if_neg hless]
  | case3 f i n h =>
    intro k hk
    rw [siftDown]
    simp only [dif_neg h]

theorem siftDown_mem (f : Nat → Transaction) (i n : Nat) :
    ∀ k, k < n → ∃ j, j < n ∧ siftDown f i n k = f j := by
  induction f, i, n using siftDown.induct with
  | case1 f i n h hless ih =>
    intro k hk
    rw [siftDown]
    simp only [dif_pos h, if_pos hless]
    obtain ⟨j, hj, hval⟩ := ih k hk
    have hjn := downJ_lt f h
    have hin : i < n := by omega
    by_cases hji : j = i
    · exact ⟨downJ f i n, hjn, by rw [hval, hji, heapSwap_fst]⟩
    · by_cases hjd : j = downJ f i n
      · exact ⟨i, hin, by rw [hval, hjd, heapSwap_snd]⟩
      · exact ⟨j, hj, by rw [hval, heapSwap_other f hji hjd]⟩
  | case2 f i n h hless =>
    intro k hk
    rw [siftDown]
    simp only [dif_pos h, if_neg hless]
    exact ⟨k, hk, rfl⟩
  | case3 f i n h =>
    intro k hk
    rw [siftDown]
    simp only [dif_neg h]
    exact ⟨k, hk, rfl⟩

theorem siftDown_restore :
    ∀ (f : Nat → Transaction) (i n : Nat),
      (∀ c, c < n → 0 < c → (c-1)/2 ≠ i → lessTx (f c) (f ((c-1)/2)) = false) →
      (0 < i → ∀ c, c < n → (c-1)/2 = i → lessTx (f c) (f ((i-1)/2)) = false) →
      heapInv (siftDown f i n) n := by
  intro f i n
  induction f, i, n using siftDown.induct with
  | case1 f i n h hless ih =>
    intro h1 h2
    rw [siftDown]
    simp only [dif_pos h, if_pos hless]
    have hij : i < downJ f i n := lt_downJ f i n
    have hjn : downJ f i n < n := downJ_lt f h
    have hpj : (downJ f i n - 1) / 2 = i := parent_downJ f i n
    apply ih
    · -- every edge whose parent is not the new hole is ordered after the swap
      intro c hc hc0 hp
      by_cases hcj : c = downJ f i n
      · subst hcj
        rw [hpj, heapSwap_snd, heapSwap_fst]
        exact lessTx_asymm hless
      · by_cases hci : c = i
        · subst hci
          have hq1 : (c-1)/2 ≠ c := by omega
          have hq2 : (c-1)/2 ≠ downJ f c n := by omega
          rw [heapSwap_fst, heapSwap_other f hq1 hq2]
          exact h2 hc0 (downJ f c n) hjn hpj
        · rw [heapSwap_other f hci hcj]
          by_cases hpi : (c-1)/2 = i
          · rw [hpi, heapSwap_fst]
            have hc12 : c = 2*i+1 ∨ c = 2*i+2 := by omega
            rcases downJ_spec f i n with ⟨hj1, hright⟩ | ⟨hj2, _, hlt⟩
            · have hc2 : c = 2*i+2 := by omega
              subst hc2
              rw [hj1]
              exact hright hc
            · have hc1 : c = 2*i+1 := by omega
              subst hc1
              rw [hj2]
              exact lessTx_asymm hlt
          · rw [heapSwap_other f hpi hp]
            exact h1 c hc hc0 hpi
    · -- the new hole's children fit below the new hole's parent
      intro _ c hc hcp
      rw [hpj, heapSwap_fst]
      have hcj : c ≠ downJ f i n := by omega
      have hci : c ≠ i := by omega
      have hc0 : 0 < c := by omega
      rw [heapSwap_other f hci hcj]
      have := h1 c hc hc0 (by omega)
      rw [hcp] at this
      exact this
  | case2 f i n h hless =>
    intro h1 h2
    rw [siftDown]
    simp only [dif_pos h, if_neg hless]
    have hlf : lessTx (f (downJ f i n)) (f i) = false := Bool.eq_false_iff.mpr hless
    intro c hc hc0
    by_cases hp : (c-1)/2 = i
    · have hc12 : c = 2*i+1 ∨ c = 2*i+2 := by omega
      rcases downJ_spec f i n with ⟨hj1, hright⟩ | ⟨hj2, _, hlt⟩
      · rw [hj1] at hlf
        rcases hc12 with hc1 | hc2
        · subst hc1
          rw [hp]
          exact hlf
        · subst hc2
          rw [hp]
          exact lessTx_neg_trans hlf (hright hc)
      · rw [hj2] at hlf
        rcases hc12 with hc1 | hc2
        · subst hc1
          rw [hp]
          exact lessTx_true_false hlt hlf
        · subst hc2
          rw [hp]
          exact hlf
    · exact h1 c hc hc0 hp
  | case3 f i n h =>
    intro h1 h2
    rw [siftDown]
    simp only [dif_neg h]
    intro c hc hc0
    by_cases hp : (c-1)/2 = i
    · omega
    · exact h1 c hc hc0 hp

theorem heap_root_min {f : Nat → Transaction} {n : Nat} (h : heapInv f n) :
    ∀ k, k < n → lessTx (f k) (f 0) = false := by
  intro k
  induction k using Nat.strong_induction_on with
  | _ k ih =>
    intro hk
    rcases Nat.eq_zero_or_pos k with h0 | h0
    · subst h0
      exact lessTx_irrefl _
    · have hpar := h k hk h0
      have hplt : (k-1)/2 < k := by omega
      have hroot := ih ((k-1)/2) hplt (by omega)
      exact lessTx_neg_trans hroot hpar

theorem goHeapPop_val (f : Nat → Transaction) (m : Nat) :
    (goHeapPop f m).1 = f 0 := by
  unfold goHeapPop
  simp only
  rw [siftDown_out _ _ _ _ (le_refl _)]
  rcases Nat.eq_zero_or_pos (m - 1) with h0 | h0
  · rw [h0]
    simp [heapSwap]
  · exact heapSwap_snd f 0 (m-1)

theorem goHeapPop_len (f : Nat → Transaction) (m : Nat) : (goHeapPop f m).2.2 = m - 1 := rfl

theorem goHeapPop_heapInv {f : Nat → Transaction} {m : Nat} (h : heapInv f m) :
    heapInv (goHeapPop f m).2.1 (m - 1) := by
  unfold goHeapPop
  simp only
  apply siftDown_restore
  · intro c hc hc0 hp
    have hcne : c ≠ m - 1 := by omega
    have hpne : (c-1)/2 ≠ m - 1 := by omega
    rw [heapSwap_other f (by omega) hcne, heapSwap_other f hp hpne]
    exact h c (by omega) hc0
  · intro h0
    omega

theorem goHeapPop_mem (f : Nat → Transaction) (m : Nat) :
    ∀ k, k < m - 1 → ∃ j, j < m ∧ (goHeapPop f m).2.1 k = f j := by
  intro k hk
  unfold goHeapPop
  simp only
  obtain ⟨j, hj, hval⟩ := siftDown_mem (heapSwap f 0 (m-1)) 0 (m-1) k hk
  by_cases hj0 : j = 0
  · exact ⟨m - 1, by omega, by
      rw [hval, hj0, heapSwap_fst]⟩
  · by_cases hjm : j = m - 1
    · exact ⟨0, by omega, by rw [hval, hjm, heapSwap_snd]⟩
    · exact ⟨j, by omega, by rw [hval, heapSwap_other f hj0 hjm]⟩

theorem popLoop_spec :
    ∀ (k : Nat) (f : Nat → Transaction) (len : Nat)
      (pending : List (String × Transaction)),
      heapInv f len → k ≤ len →
      (popLoop f len pending k).1.length = k ∧
      (popLoop f len pending k).2.2.1 = len - k ∧
      (∀ tx ∈ (popLoop f len pending k).1, ∃ j, j < len ∧ tx = f j) ∧
      List.Sorted specLe (popLoop f len pending k).1 ∧
      (∀ e ∈ (popLoop f len pending k).2.2.2, e ∈ pending) ∧
      (∀ tx ∈ (popLoop f len pending k).1,
        ((popLoop f len pending k).2.2.2).any (fun e => e.1 = tx.id) = false) := by
  intro k
  induction k with
  | zero =>
    intro f len pending _ _
    simp [popLoop]
  | succ k ih =>
    intro f len pending hinv hk
    have hm : 1 ≤ len := by omega
    have hval := goHeapPop_val f len
    have hinv2 : heapInv (goHeapPop f len).2.1 (len - 1) := goHeapPop_heapInv hinv
    have hk2 : k ≤ len - 1 := by omega
    obtain ⟨ihlen, ihnewlen, ihmem, ihsorted, ihmono, ihabs⟩ :=
      ih (goHeapPop f len).2.1 (len - 1)
        (pending.filter (fun e => e.1 ≠ (goHeapPop f len).1.id)) hinv2 hk2
    refine ⟨?_, ?_, ?_, ?_, ?_, ?_⟩
    · simp only [popLoop, goHeapPop_len, List.length_cons]
      omega
    · simp only [popLoop, goHeapPop_len]
      omega
    · simp only [popLoop, goHeapPop_len, List.mem_cons]
      rintro tx (rfl | htx)
      · exact ⟨0, by omega, hval⟩
      · obtain ⟨j, hj, hjv⟩ := ihmem tx htx
        obtain ⟨j2, hj2, hj2v⟩ := goHeapPop_mem f len j hj
        exact ⟨j2, hj2, by rw [hjv, hj2v]⟩
    · simp only [popLoop, goHeapPop_len]
      rw [List.sorted_cons]
      refine ⟨?_, ihsorted⟩
      intro y hy
      obtain ⟨j, hj, hjv⟩ := ihmem y hy
      obtain ⟨j2, hj2, hj2v⟩ := goHeapPop_mem f len j hj
      rw [specLe_iff_lessTx, hval, hjv, hj2v]
      exact heap_root_min hinv j2 hj2
    · simp only [popLoop, goHeapPop_len]
      intro e he
      have := ihmono e he
      exact List.mem_of_mem_filter this
    · simp only [popLoop, goHeapPop_len, List.mem_cons]
      rintro tx (rfl | htx)
      · rw [List.any_eq_false]
        intro e he
        have he2 := ihmono e he
        have := List.of_mem_filter he2
        simpa using this
      · exact ihabs tx htx

/-! ## Claim C2: `Mempool.PopBatch` -/

/-- C2: for every mempool state whose queue satisfies the binary-heap
invariant (as every state reachable through the mempool API does) and
every `k`, `PopBatch(k)` returns at most `k` transactions, sorted by
priority descending with admission timestamp ascending as tie-breaker,
and every returned transaction's ID is absent from the resulting
pending map, so `Contains(T.ID)` is false afterwards. -/
theorem mempool_popBatch_sorted_and_removed (m : Mempool) (k : Nat)
    (h : heapInv m.qf m.qlen) :
    (goPopBatch m k).1.length ≤ k ∧
    List.Sorted specLe (goPopBatch m k).1 ∧
    ∀ tx ∈ (goPopBatch m k).1, goContains (goPopBatch m k).2 tx.id = false := by
  unfold goPopBatch
  split
  · simp
  · next hg =>
    have hk : min k m.qlen ≤ m.qlen := Nat.min_le_right _ _
    obtain ⟨hlen, _, _, hsorted, _, habs⟩ :=
      popLoop_spec (min k m.qlen) m.qf m.qlen m.pending h hk
    simp only
    refine ⟨?_, hsorted, ?_⟩
    · rw [hlen]
      exact Nat.min_le_left _ _
    · intro tx htx
      exact habs tx htx

/-- Witness for C2 at a concrete 3-element heap, popping 2. -/
theorem mempool_popBatch_sorted_and_removed_witness :
    heapInv wMempool.qf wMempool.qlen ∧
    ((goPopBatch wMempool 2).1.length ≤ 2 ∧
     List.Sorted specLe (goPopBatch wMempool 2).1 ∧
     ∀ tx ∈ (goPopBatch wMempool 2).1, goContains (goPopBatch wMempool 2).2 tx.id = false) :=
  ⟨by decide, mempool_popBatch_sorted_and_removed wMempool 2 (by decide)⟩

/-! ## Claim C3: framed read/write round trip and oversize rejection -/

theorem be32_decode_encode (L : Nat) (h : L < 2^32) :
    be32val (L / 2^24 % 256) (L / 2^16 % 256) (L / 2^8 % 256) (L % 256) = L := by
  unfold be32val
  omega

/-- C3: writing any payload of length at most `MaxMessageSize` succeeds
and a read over the written bytes (followed by anything) returns the
identical payload; and any stream whose 4-byte big-endian prefix
declares a length above `MaxMessageSize` is rejected with the oversize
error irrespective of the rest of the stream — in particular before any
body is consumed or stored. -/
theorem framed_roundtrip_and_oversize :
    (∀ (p rest : List Nat), p.length ≤ maxMessageSize →
      goWriteMessage p = .ok (be32 p.length ++ p) ∧
      goReadMessage (be32 p.length ++ p ++ rest) = .ok p) ∧
    (∀ (b0 b1 b2 b3 : Nat) (rest : List Nat), be32val b0 b1 b2 b3 > maxMessageSize →
      goReadMessage (b0 :: b1 :: b2 :: b3 :: rest) = .error .oversize) := by
  constructor
  · intro p rest hp
    have hlt : p.length < 2^32 := by
      unfold maxMessageSize at hp
      omega
    constructor
    · unfold goWriteMessage
      rw [if_neg (by omega), if_neg (by omega)]
    · show goReadMessage (be32 p.length ++ (p ++ rest)) = .ok p
      unfold be32 goReadMessage
      simp only [List.cons_append, List.nil_append]
      rw [be32_decode_encode p.length hlt]
      rw [if_neg (by omega)]
      rw [if_neg (by simp)]
      rw [List.take_left]
  · intro b0 b1 b2 b3 rest hbig
    unfold goReadMessage
    simp only
    rw [if_pos hbig]

/-- Witness for C3: the 5-byte payload `hello` round-trips, and a
declared length of `2^32 - 1` is rejected even with an empty body. -/
theorem framed_roundtrip_and_oversize_witness :
    (goWriteMessage [104, 101, 108, 108, 111] =
       .ok (be32 ([104, 101, 108, 108, 111] : List Nat).length ++ [104, 101, 108, 108, 111]) ∧
     goReadMessage (be32 ([104, 101, 108, 108, 111] : List Nat).length ++
       [104, 101, 108, 108, 111] ++ []) = .ok [104, 101, 108, 108, 111]) ∧
    goReadMessage (255 :: 255 :: 255 :: 255 :: []) = .error .oversize :=
  ⟨framed_roundtrip_and_oversize.1 [104, 101, 108, 108, 111] [] (by decide),
   framed_roundtrip_and_oversize.2 255 255 255 255 [] (by decide)⟩

/-! ## Claim C7: worker-pool success rate -/

/-- C7 counterexample: with one completed and one failed task the code
reports `SuccessRate = 50` (a percentage), not `1/2` as the claim's
formula `completed / (completed + failed)` states. -/
theorem pool_successRate_counterexample :
    (goGetStats "pool" 4 0 1 1 0).successRate = 50 ∧
    (goGetStats "pool" 4 0 1 1 0).successRate ≠ (1 : ℚ) / (1 + 1) := by
  constructor
  · norm_num [goGetStats]
  · norm_num [goGetStats]

/-- C7 amended: whenever `completed + failed > 0`, `GetStats` reports
`SuccessRate = completed / (completed + failed) * 100`. -/
theorem pool_successRate (name : String) (w a c f : Int) (p : Nat)
    (h : c + f > 0) :
    (goGetStats name w a c f p).successRate = (c : ℚ) / ((c : ℚ) + (f : ℚ)) * 100 := by
  unfold goGetStats
  simp only [if_pos h]
  push_cast
  ring

/-- Witness for C7 at completed = 3, failed = 1. -/
theorem pool_successRate_witness :
    ((3 : Int) + 1 > 0) ∧
    (goGetStats "pool" 4 0 3 1 0).successRate = (3 : ℚ) / ((3 : ℚ) + (1 : ℚ)) * 100 :=
  ⟨by norm_num, pool_successRate "pool" 4 0 3 1 0 (by norm_num)⟩

/-! ## Claim C5: ordering-service Start transitions -/

/-- C5 counterexample: starting from the initial Maintenance state,
`Start` succeeds into Active, but a second `Start` while Active fails
with the already-running error instead of succeeding idempotently; and
after `Stop` (Shutdown state) `Start` succeeds back into Active instead
of being forbidden. -/
theorem ordering_start_counterexample :
    goStart osMaint = .ok osActive ∧
    osActive.status = .active ∧
    goStart osActive = .error "service already running" ∧
    osShut.status = .shutdown ∧
    goStart osShut = .ok { osShut with running := true, status := .active } := by
  refine ⟨rfl, rfl, rfl, rfl, rfl⟩

/-- C5 amended: `Start` moves any non-running state (the initial
Maintenance state, and the Shutdown state left by `Stop`) to Active;
calling `Start` while the service is running (Active) fails with the
already-running error and leaves the state unchanged. -/
theorem ordering_start_spec (s : OSState) :
    (s.running = false → goStart s = .ok { s with running := true, status := .active }) ∧
    (s.running = true → goStart s = .error "service already running") := by
  unfold goStart
  constructor <;> intro h <;> simp [h]

/-- Witness for C5 at the initial and the started state. -/
theorem ordering_start_spec_witness :
    goStart osMaint = .ok { osMaint with running := true, status := .active } ∧
    goStart osActive = .error "service already running" :=
  ⟨(ordering_start_spec osMaint).1 rfl, (ordering_start_spec osActive).2 rfl⟩

/-! ## Claim C8: SubmitEvent -/

/-- C8 counterexample: on a saturated intake channel `SubmitEvent`
returns the queue-full error, yet the submitted event has already been
stamped (`Status = Pending`, `ReceivedAt = now`), so it is not left
unmodified on that error path. -/
theorem ordering_submit_counterexample :
    (goSubmitEvent osFull evC8 5).1 = .error "event queue full" ∧
    (goSubmitEvent osFull evC8 5).2.2 ≠ evC8 ∧
    (goSubmitEvent osFull evC8 5).2.2 = { evC8 with status := .pending, receivedAt := 5 } := by
  refine ⟨rfl, by decide, rfl⟩

/-- C8 amended: `SubmitEvent` returns the not-running error with the
event untouched when the service is not running (equivalently, not
Active); otherwise it stamps `received_at = now` and `status = Pending`
first, and then either enqueues the stamped event, or returns the
intake-full error when the channel is saturated — with the event
already stamped on that error path. -/
theorem ordering_submit_spec (s : OSState) (e : PendingEvent) (now : Int) :
    (s.running = false → goSubmitEvent s e now = (.error "service not running", s, e)) ∧
    (s.running = true → s.eventChan.length < s.maxPending →
      goSubmitEvent s e now =
        (.ok (),
         { s with eventChan := s.eventChan ++ [{ e with status := .pending, receivedAt := now }] },
         { e with status := .pending, receivedAt := now })) ∧
    (s.running = true → ¬ s.eventChan.length < s.maxPending →
      goSubmitEvent s e now =
        (.error "event queue full", s, { e with status := .pending, receivedAt := now })) := by
  unfold goSubmitEvent
  refine ⟨fun h => ?_, fun h h2 => ?_, fun h h2 => ?_⟩
  · simp [h]
  · simp [h, h2]
  · simp [h, h2]

/-- Witness for C8 on the three paths: stopped service, active service
with room, active service with a saturated channel. -/
theorem ordering_submit_spec_witness :
    goSubmitEvent osMaint evC8 5 = (.error "service not running", osMaint, evC8) ∧
    goSubmitEvent osActive evC8 5 =
      (.ok (),
       { osActive with eventChan := osActive.eventChan ++ [{ evC8 with status := .pending, receivedAt := 5 }] },
       { evC8 with status := .pending, receivedAt := 5 }) ∧
    goSubmitEvent osFull evC8 5 =
      (.error "event queue full", osFull, { evC8 with status := .pending, receivedAt := 5 }) :=
  ⟨(ordering_submit_spec osMaint evC8 5).1 rfl,
   (ordering_submit_spec osActive evC8 5).2.1 rfl (by decide),
   (ordering_submit_spec osFull evC8 5).2.2 rfl (by decide)⟩

/-! ## Claim C1: block emission bookkeeping -/

/-- C1 (code bug): on a timeout-flusher tick the service publishes the
flushed batch and increments `blocksCreated`, but — unlike the
`handleEvent` emission path — it neither marks the batched events
`Ordered` nor removes them from the pending map: at this concrete state
the published block's event still has status `Certified` and its ID is
still present in the pending map after the tick. -/
theorem ordering_tick_divergence :
    (goCheckTimeoutsTick osTick 5).blockChan = [[evCert]] ∧
    evCert.status = .certified ∧
    mapHas (goCheckTimeoutsTick osTick 5).pending "e1" = true ∧
    (goCheckTimeoutsTick osTick 5).blocksCreated = 1 := by
  refine ⟨rfl, rfl, rfl, rfl⟩

/-! ## Claim C4: HandleIncoming dedup, hop limiting, selective broadcast -/

/-- C4: `HandleIncoming` returns false with nothing sent and nothing
changed when the message's hash is already in the seen cache — so a
second call with the same message always returns false; on a first-seen
message with `hops ≥ MaxHops` it returns true without broadcasting; and
otherwise it increments the message's hop counter, broadcasts to
exactly the peers other than the sender (on a running node), and
returns true. -/
theorem propagator_handleIncoming_spec (p : PropState) (n : Node) (msg : Message) (now : Int) :
    (goIsDuplicate p (hashMessage msg) = true →
      goHandleIncoming p n msg now = (false, p, [], msg)) ∧
    (goIsDuplicate p (hashMessage msg) = false → msg.hops ≥ p.maxHops →
      goHandleIncoming p n msg now =
        (true, { p with seen := hashMessage msg :: p.seen }, [], msg)) ∧
    (goIsDuplicate p (hashMessage msg) = false → msg.hops < p.maxHops → n.running = true →
      (goHandleIncoming p n msg now).1 = true ∧
      (goHandleIncoming p n msg now).2.2.2 = { msg with hops := msg.hops + 1 } ∧
      ((goHandleIncoming p n msg now).2.2.1).map Prod.fst =
        n.peers.filter (fun q => q ≠ msg.from_)) ∧
    (∀ now2, (goHandleIncoming (goHandleIncoming p n msg now).2.1 n msg now2).1 = false) := by
  refine ⟨fun hdup => ?_, fun hdup hh => ?_, fun hdup hh hrun => ?_, fun now2 => ?_⟩
  · simp [goHandleIncoming, hdup]
  · simp [goHandleIncoming, hdup, hh]
  · have hh2 : ¬ msg.hops ≥ p.maxHops := not_le.mpr hh
    refine ⟨?_, ?_, ?_⟩
    · simp [goHandleIncoming, hdup, hh2]
    · simp [goHandleIncoming, hdup, hh2]
    · simp only [goHandleIncoming, hdup, Bool.false_eq_true, if_false, hh2, if_neg hh2,
        if_false]
      unfold goBroadcastSends
      rw [if_neg (by simp [hrun])]
      rw [List.map_map]
      have : (Prod.fst ∘ fun q => (q, goSendDirectMsg n q msg.payload now)) = id := rfl
      rw [this, List.map_id]
      apply List.filter_congr
      intro q _
      simp [List.contains]
  · by_cases hmem : hashMessage msg ∈ p.seen
    · simp [goHandleIncoming, goIsDuplicate, hmem]
    · by_cases hh : msg.hops ≥ p.maxHops
      · simp [goHandleIncoming, goIsDuplicate, hmem, hh]
      · simp [goHandleIncoming, goIsDuplicate, hmem, hh]

/-- Witness for C4: a 2-hop message from peer p2 on a 3-peer node is
processed, its hops rise to 3, it is forwarded to p1 and p3 only, a
replay of it is reported as duplicate, and a 7-hop first-seen message is
processed without forwarding. -/
theorem propagator_handleIncoming_spec_witness :
    ((goHandleIncoming propW nodeW msgW 100).1 = true ∧
     (goHandleIncoming propW nodeW msgW 100).2.2.2 = { msgW with hops := msgW.hops + 1 } ∧
     ((goHandleIncoming propW nodeW msgW 100).2.2.1).map Prod.fst =
       nodeW.peers.filter (fun q => q ≠ msgW.from_)) ∧
    (goHandleIncoming (goHandleIncoming propW nodeW msgW 100).2.1 nodeW msgW 200).1 = false ∧
    goHandleIncoming propW nodeW { msgW with hops := 7 } 100 =
      (true, { propW with seen := hashMessage { msgW with hops := 7 } :: propW.seen }, [],
       { msgW with hops := 7 }) :=
  ⟨(propagator_handleIncoming_spec propW nodeW msgW 100).2.2.1 (by decide) (by decide) (by decide),
   (propagator_handleIncoming_spec propW nodeW msgW 100).2.2.2 200,
   (propagator_handleIncoming_spec propW nodeW { msgW with hops := 7 } 100).2.1
     (by decide) (by decide)⟩

/-! ## Claim C6: nonce replay protection -/

/-- C6: for a message with a non-empty nonce the replay check rejects it
exactly when the nonce is already cached or the message is older than
`ReplayTolerance`; on acceptance the nonce is recorded at the current
time; an empty nonce is always accepted with the cache unchanged. -/
theorem replay_check_spec (n : Node) (msg : Message) (now : Int) :
    (msg.nonce = "" → goIsValidReplay n msg now = (true, n.replayCache)) ∧
    (msg.nonce ≠ "" →
      (((goIsValidReplay n msg now).1 = false) ↔
        (n.replayCache.any (fun e => e.1 = msg.nonce) = true ∨
          now - msg.timestamp > n.replayTolerance)) ∧
      ((goIsValidReplay n msg now).1 = true →
        (goIsValidReplay n msg now).2 = (msg.nonce, now) :: n.replayCache)) := by
  refine ⟨fun h => by simp [goIsValidReplay, h], fun h => ?_⟩
  unfold goIsValidReplay
  rw [if_neg h]
  by_cases h1 : n.replayCache.any (fun e => e.1 = msg.nonce) = true
  · simp [h1]
  · have h1f : n.replayCache.any (fun e => e.1 = msg.nonce) = false :=
      Bool.eq_false_iff.mpr h1
    by_cases h2 : now - msg.timestamp > n.replayTolerance
    · simp [h1f, h2]
    · simp [h1f, h2]

/-- Witness for C6: an empty-nonce message passes; a fresh nonce within
tolerance is accepted and recorded; the rejection condition matches on
this instance. -/
theorem replay_check_spec_witness :
    (goIsValidReplay nodeW { msgW with nonce := "" } 120 = (true, nodeW.replayCache)) ∧
    ((((goIsValidReplay nodeW msgW 120).1 = false) ↔
       (nodeW.replayCache.any (fun e => e.1 = msgW.nonce) = true ∨
         120 - msgW.timestamp > nodeW.replayTolerance)) ∧
     (((goIsValidReplay nodeW msgW 120).1 = true) →
       (goIsValidReplay nodeW msgW 120).2 = (msgW.nonce, 120) :: nodeW.replayCache)) :=
  ⟨(replay_check_spec nodeW { msgW with nonce := "" } 120).1 rfl,
   (replay_check_spec nodeW msgW 120).2 (by decide)⟩

/-! ## Claim C9: forwarded bytes are fresh `SendDirect` envelopes -/

/-- C9: every envelope the propagator puts on the wire — when
forwarding in `HandleIncoming` and when originating in `Propagate` — is
freshly built by `SendDirect`: type `"direct"`, the node as sender, the
receiving peer, only the original payload map, the current time, a
fresh nonce, and a zero hop counter. Hence the hop counter incremented
by `HandleIncoming` and the original (type, sender, timestamp) dedup
identity are never transmitted: two inbound messages with the same
payload and sender produce identical wire traffic. -/
theorem propagator_fresh_envelope (p : PropState) (n : Node) (msg : Message) (now : Int) :
    (∀ pr ∈ (goHandleIncoming p n msg now).2.2.1,
      pr.2 = ⟨"direct", n.nodeID, pr.1, msg.payload, now, mkNonce now n.nodeID, 0⟩) ∧
    (∀ (msgType : String) (payload : Payload),
      ∀ pr ∈ (goPropagate p n msgType payload now).2,
        pr.2 = ⟨"direct", n.nodeID, pr.1, payload, now, mkNonce now n.nodeID, 0⟩) ∧
    (∀ msg2 : Message, msg2.payload = msg.payload → msg2.from_ = msg.from_ →
      goIsDuplicate p (hashMessage msg) = false → goIsDuplicate p (hashMessage msg2) = false →
      msg.hops < p.maxHops → msg2.hops < p.maxHops →
      (goHandleIncoming p n msg now).2.2.1 = (goHandleIncoming p n msg2 now).2.2.1) := by
  have hsend : ∀ (payload : Payload) (exclude : List String),
      ∀ pr ∈ goBroadcastSends n payload exclude now,
        pr.2 = ⟨"direct", n.nodeID, pr.1, payload, now, mkNonce now n.nodeID, 0⟩ := by
    intro payload exclude pr hpr
    unfold goBroadcastSends at hpr
    by_cases hr : n.running = true
    · rw [if_neg (by simp [hr])] at hpr
      obtain ⟨q, _, rfl⟩ := List.mem_map.mp hpr
      rfl
    · rw [if_pos (by simp [hr])] at hpr
      simp at hpr
  refine ⟨?_, ?_, ?_⟩
  · intro pr hpr
    by_cases hmem : hashMessage msg ∈ p.seen
    · simp [goHandleIncoming, goIsDuplicate, hmem] at hpr
    · by_cases hh : msg.hops ≥ p.maxHops
      · simp [goHandleIncoming, goIsDuplicate, hmem, hh] at hpr
      · simp only [goHandleIncoming, goIsDuplicate] at hpr
        rw [if_neg (by simp [hmem])] at hpr
        rw [if_neg hh] at hpr
        exact hsend msg.payload [msg.from_] pr hpr
  · intro msgType payload pr hpr
    unfold goPropagate at hpr
    exact hsend payload [] pr hpr
  · intro msg2 hpay hfrom hd1 hd2 hh1 hh2
    have hh1n : ¬ msg.hops ≥ p.maxHops := not_le.mpr hh1
    have hh2n : ¬ msg2.hops ≥ p.maxHops := not_le.mpr hh2
    simp only [goHandleIncoming, hd1, hd2, Bool.false_eq_true, if_false, if_neg hh1n,
      if_neg hh2n]
    rw [hpay, hfrom]

/-- Witness for C9: on the concrete node the envelope sent to peer p1
while forwarding `msgW` is the fresh direct envelope, and a second
message differing from `msgW` only in type, timestamp and hops yields
identical wire traffic. -/
theorem propagator_fresh_envelope_witness :
    (("p1", goSendDirectMsg nodeW "p1" msgW.payload 100) ∈
       (goHandleIncoming propW nodeW msgW 100).2.2.1 ∧
     ("p1", goSendDirectMsg nodeW "p1" msgW.payload 100).2 =
       ⟨"direct", nodeW.nodeID, ("p1", goSendDirectMsg nodeW "p1" msgW.payload 100).1,
        msgW.payload, 100, mkNonce 100 nodeW.nodeID, 0⟩) ∧
    (goHandleIncoming propW nodeW msgW 100).2.2.1 =
      (goHandleIncoming propW nodeW
        { msgW with type_ := "other", timestamp := 777, hops := 0 } 100).2.2.1 :=
  ⟨⟨by decide,
    (propagator_fresh_envelope propW nodeW msgW 100).1
      ("p1", goSendDirectMsg nodeW "p1" msgW.payload 100) (by decide)⟩,
   (propagator_fresh_envelope propW nodeW msgW 100).2.2
     { msgW with type_ := "other", timestamp := 777, hops := 0 }
     rfl rfl (by decide) (by decide) (by decide) (by decide)⟩

/-! ## Claim C10: auth token extraction -/

theorem goTokenIdxAux_found (s : List Char) :
    ∀ (fuel i0 i : Nat), i0 ≤ i → i < i0 + fuel → matchesAt s i = true →
      (∀ i2, i0 ≤ i2 → i2 < i → matchesAt s i2 = false) →
      goTokenIdxAux s fuel i0 = i + 9 := by
  intro fuel
  induction fuel with
  | zero =>
    intro i0 i h1 h2 _ _
    omega
  | succ fuel ih =>
    intro i0 i h1 h2 h3 h4
    unfold goTokenIdxAux
    by_cases hm : matchesAt s i0
    · rw [if_pos hm]
      have hii : i = i0 := by
        by_contra hne
        have hlt : i0 < i := by omega
        have := h4 i0 (le_refl _) hlt
        rw [this] at hm
        exact absurd hm (by simp)
      omega
    · rw [if_neg hm]
      have hne : i ≠ i0 := by
        intro he
        rw [he] at h3
        exact hm (by simp [h3])
      exact ih (i0+1) i (by omega) (by omega) h3 (fun i2 hi2 hlt => h4 i2 (by omega) hlt)

/-- C10 counterexample: the frame `"token":""token":"abc"` does contain
a non-empty quote-terminated token value (after its second `"token":"`
occurrence), yet extraction follows the first occurrence, finds an
empty value, and the handshake rejects the frame as malformed before
any token comparison — so "any first frame containing a non-empty
quote-terminated token value anywhere is treated as an auth attempt"
fails. -/
theorem auth_extract_counterexample :
    hasQuotedTokenValue badFrame = true ∧
    goExtractToken badFrame = [] ∧
    goAuthStage badFrame = .malformed := by
  refine ⟨by decide, by decide, by decide⟩

/-- C10 amended: the handshake extracts the token purely by scanning for
the substring `"token":"` — never consulting a `type` field — and takes
the characters up to the next double quote. Any first frame whose first
`"token":"` occurrence is followed by a non-empty quote-terminated
value is treated as an auth attempt and reaches the token comparison;
a frame with no occurrence (the `idx = 0` sentinel, which a real token
match can never produce since `idx ≥ 9`), an empty token value, or no
closing quote is rejected as malformed before the comparison. -/
theorem auth_token_extraction (s : List Char) :
    (∀ i, matchesAt s i = true →
      (∀ i2, i2 < i → matchesAt s i2 = false) →
      ((s.drop (i+9)).takeWhile (fun c => c ≠ '"')).length ≠ 0 →
      i + 9 + ((s.drop (i+9)).takeWhile (fun c => c ≠ '"')).length < s.length →
      goExtractToken s = (s.drop (i+9)).takeWhile (fun c => c ≠ '"') ∧
        goAuthStage s = .tokenComparison) ∧
    (goTokenIdx s = 0 → goExtractToken s = [] ∧ goAuthStage s = .malformed) ∧
    (∀ i, goTokenIdx s = i + 9 →
      ((s.drop (i+9)).takeWhile (fun c => c ≠ '"')).length = 0 →
      goExtractToken s = [] ∧ goAuthStage s = .malformed) ∧
    (∀ i, goTokenIdx s = i + 9 →
      i + 9 + ((s.drop (i+9)).takeWhile (fun c => c ≠ '"')).length ≥ s.length →
      goExtractToken s = [] ∧ goAuthStage s = .malformed) := by
  refine ⟨?_, ?_, ?_, ?_⟩
  · intro i hm hfirst hne hterm
    have hidx : goTokenIdx s = i + 9 := by
      unfold goTokenIdx
      exact goTokenIdxAux_found s (s.length - 9) 0 i (Nat.zero_le _) (by omega) hm
        (fun i2 _ hlt => hfirst i2 hlt)
    have hext : goExtractToken s = (s.drop (i+9)).takeWhile (fun c => c ≠ '"') := by
      unfold goExtractToken
      rw [hidx]
      rw [if_neg (by omega)]
      rw [if_neg (by push_neg; exact ⟨hne, by omega⟩)]
    refine ⟨hext, ?_⟩
    unfold goAuthStage
    rw [hext]
    rw [if_neg (fun hq => hne (by rw [hq]; rfl))]
  · intro h0
    have hext : goExtractToken s = [] := by
      unfold goExtractToken
      rw [h0]
      simp
    exact ⟨hext, by unfold goAuthStage; rw [hext]; simp⟩
  · intro i hi hlen
    have hext : goExtractToken s = [] := by
      unfold goExtractToken
      rw [hi]
      rw [if_neg (by omega)]
      rw [if_pos (Or.inl hlen)]
    exact ⟨hext, by unfold goAuthStage; rw [hext]; simp⟩
  · intro i hi hterm
    have hext : goExtractToken s = [] := by
      unfold goExtractToken
      rw [hi]
      rw [if_neg (by omega)]
      rw [if_pos (Or.inr hterm)]
    exact ⟨hext, by unfold goAuthStage; rw [hext]; simp⟩

/-- Witness for C10: a frame with no `type` field whose first token
occurrence carries `abc` reaches the token comparison with exactly that
token; the duplicate-occurrence frame is rejected as malformed. -/
theorem auth_token_extraction_witness :
    (goExtractToken gFrame = (gFrame.drop (1+9)).takeWhile (fun c => c ≠ '"') ∧
     goAuthStage gFrame = .tokenComparison) ∧
    (goExtractToken badFrame = [] ∧ goAuthStage badFrame = .malformed) :=
  ⟨(auth_token_extraction gFrame).1 1 (by decide) (by decide) (by decide) (by decide),
   (auth_token_extraction badFrame).2.2.1 0 (by decide) (by decide)⟩

end HieraChain
